import Mathlib

/-!
Shallow embedding of the waveform core of the Sine-Simulator-Imgui repository
(`src/core/CoreLogic.hpp`, `src/core/CoreLogic.cpp`).

The C++ core is a single class `CoreLogic` holding simulation parameters
(`frequency_`, `amplitude_`, `phase_`, `noise_`, `fps_`, `wave_type_`, two
colors), a simulated clock `time_`, and a bounded history
`sine_wave_values_` of at most `MAX_VALUES = 500` samples.  `Update()`
advances `time_` by `1 / fps_`, generates one sample with
`GenerateWaveValue(time_)`, appends it, and erases the oldest element when
the size exceeds `MAX_VALUES`.  `GenerateWaveValue` computes the
phase-adjusted angle `2·π·frequency_·time + phase_`, a shape-dependent base
value, scales it by `amplitude_`, and, when `noise_ > 0`, adds
`noise_ · amplitude_ · U` for a draw `U` of a uniform distribution on
[-1, 1] from a process-lifetime generator.

Machine floats are modelled by real numbers; the random draw is passed as
an explicit argument `u`, and an iterated run takes a stream `d : ℕ → ℝ`
of draws.
-/

/-- The five wave shapes of `enum class WaveType` in `CoreLogic.hpp`. -/
inductive WaveType : Type where
  | SINE : WaveType
  | COSINE : WaveType
  | SQUARE : WaveType
  | TRIANGLE : WaveType
  | SAWTOOTH : WaveType
deriving DecidableEq

/-- State of the `CoreLogic` class: the private data members of
`CoreLogic.hpp`.  The three-component float arrays `wave_color_` and
`bg_color_` are modelled as real triples. -/
structure CoreLogic : Type where
  frequency_ : ℝ
  amplitude_ : ℝ
  phase_ : ℝ
  noise_ : ℝ
  time_ : ℝ
  fps_ : ℝ
  wave_type_ : WaveType
  wave_color_ : ℝ × ℝ × ℝ
  bg_color_ : ℝ × ℝ × ℝ
  sine_wave_values_ : List ℝ

/-- `static constexpr size_t MAX_VALUES = 500;` from `CoreLogic.hpp`. -/
def CoreLogic.MAX_VALUES : ℕ := 500

/-- Truncation toward zero on the reals, the rounding used by C `fmod`:
floor for nonnegative arguments, ceiling for negative ones. -/
noncomputable def rtrunc (x : ℝ) : ℝ :=
  if 0 ≤ x then (⌊x⌋ : ℝ) else (⌈x⌉ : ℝ)

/-- C `fmod(x, y) = x - y * trunc(x / y)` over the reals. -/
noncomputable def fmod (x y : ℝ) : ℝ :=
  x - y * rtrunc (x / y)

/-- The value held by `base_value` at the end of the `switch` in
`CoreLogic::GenerateWaveValue`, before the line `base_value *= amplitude_;`.
`time` is the argument of the C++ function. -/
noncomputable def CoreLogic.GenerateWaveValueBase (s : CoreLogic) (time : ℝ) : ℝ :=
  let adjusted_time : ℝ := 2 * Real.pi * s.frequency_ * time + s.phase_
  match s.wave_type_ with
  | WaveType.SINE => Real.sin adjusted_time
  | WaveType.COSINE => Real.cos adjusted_time
  | WaveType.SQUARE => if Real.sin adjusted_time ≥ 0 then 1 else -1
  | WaveType.TRIANGLE =>
      let normalized0 : ℝ := fmod (adjusted_time / (2 * Real.pi)) 1
      let normalized : ℝ := if normalized0 < 0 then normalized0 + 1 else normalized0
      if normalized < 0.25 then 4 * normalized
      else if normalized < 0.75 then 2 - 4 * normalized
      else 4 * normalized - 4
  | WaveType.SAWTOOTH =>
      let normalized0 : ℝ := fmod (adjusted_time / (2 * Real.pi)) 1
      let normalized : ℝ := if normalized0 < 0 then normalized0 + 1 else normalized0
      2 * normalized - 1

/-- `CoreLogic::GenerateWaveValue(time)`.  The draw of
`dis(gen)` (uniform on [-1, 1] from the function-local static generator) is
passed as the explicit argument `u`; when `noise_ ≤ 0` the draw is not
taken and `u` is unused, exactly as in the source. -/
noncomputable def CoreLogic.GenerateWaveValue (s : CoreLogic) (time u : ℝ) : ℝ :=
  let base_value : ℝ := s.GenerateWaveValueBase time * s.amplitude_
  if s.noise_ > 0 then base_value + s.noise_ * s.amplitude_ * u else base_value

/-- `CoreLogic::Update()`: advance `time_` by `1 / fps_`, append
`GenerateWaveValue(time_)` to the history, and drop the oldest element
(`erase(begin())`, i.e. `List.tail`) when the size exceeds `MAX_VALUES`.
`u` is the noise draw consumed by this tick. -/
noncomputable def CoreLogic.Update (u : ℝ) (s : CoreLogic) : CoreLogic :=
  let s1 : CoreLogic := { s with time_ := s.time_ + 1 / s.fps_ }
  let value : ℝ := s1.GenerateWaveValue s1.time_ u
  let hist : List ℝ := s1.sine_wave_values_ ++ [value]
  { s1 with
    sine_wave_values_ := if CoreLogic.MAX_VALUES < hist.length then hist.tail else hist }

/-- The freshly constructed engine: `CoreLogic::CoreLogic()` clears the
history and sets `time_ = 0`; the remaining members keep their in-class
initializers from `CoreLogic.hpp`. -/
noncomputable def CoreLogic.init : CoreLogic :=
  { frequency_ := 1
    amplitude_ := 1
    phase_ := 0
    noise_ := 0
    time_ := 0
    fps_ := 60
    wave_type_ := WaveType.SINE
    wave_color_ := (0.26, 0.59, 0.98)
    bg_color_ := (0.12, 0.14, 0.18)
    sine_wave_values_ := [] }

/-- `n` consecutive `Update()` calls, the `i`-th call consuming draw `d i`. -/
noncomputable def CoreLogic.runTicks (d : ℕ → ℝ) : ℕ → CoreLogic → CoreLogic
  | 0, s => s
  | n + 1, s => CoreLogic.Update (d n) (CoreLogic.runTicks d n s)

/-- Assignment through the mutable reference returned by `GetFrequency()`. -/
def CoreLogic.SetFrequency (v : ℝ) (s : CoreLogic) : CoreLogic :=
  { s with frequency_ := v }

/-- Assignment through the mutable reference returned by `GetAmplitude()`. -/
def CoreLogic.SetAmplitude (v : ℝ) (s : CoreLogic) : CoreLogic :=
  { s with amplitude_ := v }

/-- Assignment through the mutable reference returned by `GetFps()`. -/
def CoreLogic.SetFps (v : ℝ) (s : CoreLogic) : CoreLogic :=
  { s with fps_ := v }

/-- Assignment through the mutable reference returned by `GetPhase()`. -/
def CoreLogic.SetPhase (v : ℝ) (s : CoreLogic) : CoreLogic :=
  { s with phase_ := v }

/-- Assignment through the mutable reference returned by `GetNoise()`. -/
def CoreLogic.SetNoise (v : ℝ) (s : CoreLogic) : CoreLogic :=
  { s with noise_ := v }

/-- Assignment through the mutable reference returned by `GetWaveType()`. -/
def CoreLogic.SetWaveType (v : WaveType) (s : CoreLogic) : CoreLogic :=
  { s with wave_type_ := v }

/-- `CoreLogic::SetWaveColor(r, g, b)`. -/
def CoreLogic.SetWaveColor (r g b : ℝ) (s : CoreLogic) : CoreLogic :=
  { s with wave_color_ := (r, g, b) }

/-- `CoreLogic::SetBgColor(r, g, b)`. -/
def CoreLogic.SetBgColor (r g b : ℝ) (s : CoreLogic) : CoreLogic :=
  { s with bg_color_ := (r, g, b) }

/-- The sample produced by the `(i+1)`-st tick of a fresh engine (0-based
insertion index `i`): the fresh engine has `fps_ = 60` and ticking never
changes the parameters, so the `(i+1)`-st tick evaluates the generator at
time `(i+1)/60`.  The fresh engine has `noise_ = 0`, so the draw argument
is irrelevant; `0` is passed. -/
noncomputable def CoreLogic.nthSample (i : ℕ) : ℝ :=
  CoreLogic.GenerateWaveValue CoreLogic.init (((i : ℝ) + 1) / 60) 0

/-- The wave formula as the specification states it (§4.1 of the spec):
base value by shape at the phase-adjusted angle `θ`, with Triangle and
Sawtooth normalizing `θ/(2π)` into [0,1).  Used as the refinement target
for `CoreLogic.GenerateWaveValue`. -/
noncomputable def specShapeValue (w : WaveType) (θ : ℝ) : ℝ :=
  match w with
  | WaveType.SINE => Real.sin θ
  | WaveType.COSINE => Real.cos θ
  | WaveType.SQUARE => if 0 ≤ Real.sin θ then 1 else -1
  | WaveType.TRIANGLE =>
      let n : ℝ := Int.fract (θ / (2 * Real.pi))
      if n < 1 / 4 then 4 * n
      else if n < 3 / 4 then 2 - 4 * n
      else 4 * n - 4
  | WaveType.SAWTOOTH => 2 * Int.fract (θ / (2 * Real.pi)) - 1

/-- The truncated remainder wrapped into [0,1) — `fmod(x, 1)` followed by
the `if (normalized < 0) normalized += 1;` fix-up of the source — is the
fractional part of `x`. -/
theorem wrapped_fmod_eq_fract (x : ℝ) :
    (if fmod x 1 < 0 then fmod x 1 + 1 else fmod x 1) = Int.fract x := by
  unfold fmod rtrunc
  rcases le_or_lt 0 x with hx | hx
  · simp only [div_one, one_mul, if_pos hx]
    have h1 : x - (⌊x⌋ : ℝ) = Int.fract x := (Int.self_sub_floor x).symm ▸ rfl
    rw [show x - (⌊x⌋ : ℝ) = Int.fract x from by rw [Int.fract]]
    rw [if_neg (not_lt.mpr (Int.fract_nonneg x))]
  · simp only [div_one, one_mul, if_neg (not_le.mpr hx)]
    rcases Int.fract_eq_zero_or_add_one_sub_ceil x with h0 | h1
    · have hxint : x = (⌈x⌉ : ℝ) := by
        have hfloor : x = (⌊x⌋ : ℝ) := by
          have := Int.fract x
          rw [Int.fract] at h0
          linarith [h0]
        rw [hfloor, Int.ceil_intCast]
      rw [← hxint]
      simp [h0]
    · have hlt : x - (⌈x⌉ : ℝ) < 0 := by
        have hle : x ≤ (⌈x⌉ : ℝ) := Int.le_ceil x
        rcases lt_or_eq_of_le hle with h | h
        · linarith
        · exfalso
          have : Int.fract x = 0 := by rw [h, Int.fract_intCast]
          rw [this] at h1
          have hfrac : (0 : ℝ) = x + 1 - (⌈x⌉ : ℝ) := h1
          rw [← h] at hfrac
          linarith
      rw [if_pos hlt, h1]
      ring

/-- `GenerateWaveValueBase` reads only the parameter fields: updating
`time_` and the history does not change it. -/
theorem CoreLogic.GenerateWaveValueBase_params (s : CoreLogic) (a : ℝ) (l : List ℝ)
    (t : ℝ) :
    CoreLogic.GenerateWaveValueBase { s with time_ := a, sine_wave_values_ := l } t
      = s.GenerateWaveValueBase t := rfl

/-- `GenerateWaveValue` reads only the parameter fields: updating `time_`
and the history does not change it. -/
theorem CoreLogic.GenerateWaveValue_params (s : CoreLogic) (a : ℝ) (l : List ℝ)
    (t u : ℝ) :
    CoreLogic.GenerateWaveValue { s with time_ := a, sine_wave_values_ := l } t u
      = s.GenerateWaveValue t u := rfl

/-- When `noise_ = 0` the noise branch is not taken, so the draw is
irrelevant. -/
theorem CoreLogic.GenerateWaveValue_draw_irrel (s : CoreLogic) (t u v : ℝ)
    (h : s.noise_ = 0) : s.GenerateWaveValue t u = s.GenerateWaveValue t v := by
  simp [CoreLogic.GenerateWaveValue, h]

/-- Unfolding of one `Update()` call as a record update. -/
theorem CoreLogic.Update_eq (u : ℝ) (s : CoreLogic) :
    CoreLogic.Update u s =
      { s with
        time_ := s.time_ + 1 / s.fps_
        sine_wave_values_ :=
          if CoreLogic.MAX_VALUES
              < (s.sine_wave_values_
                  ++ [s.GenerateWaveValue (s.time_ + 1 / s.fps_) u]).length
          then (s.sine_wave_values_
                  ++ [s.GenerateWaveValue (s.time_ + 1 / s.fps_) u]).tail
          else s.sine_wave_values_
                  ++ [s.GenerateWaveValue (s.time_ + 1 / s.fps_) u] } := rfl

theorem CoreLogic.Update_initLike (u a : ℝ) (l : List ℝ) :
    CoreLogic.Update u { CoreLogic.init with time_ := a, sine_wave_values_ := l } =
      { CoreLogic.init with
        time_ := a + 1 / 60
        sine_wave_values_ :=
          if CoreLogic.MAX_VALUES
              < (l ++ [CoreLogic.GenerateWaveValue CoreLogic.init (a + 1 / 60) 0]).length
          then (l ++ [CoreLogic.GenerateWaveValue CoreLogic.init (a + 1 / 60) 0]).tail
          else l ++ [CoreLogic.GenerateWaveValue CoreLogic.init (a + 1 / 60) 0] } := by
  simp [CoreLogic.Update, CoreLogic.GenerateWaveValue, CoreLogic.GenerateWaveValueBase,
    CoreLogic.init]

theorem CoreLogic.runTicks_init_eq (d : ℕ → ℝ) (n : ℕ) :
    CoreLogic.runTicks d n CoreLogic.init =
      { CoreLogic.init with
        time_ := (n : ℝ) / 60
        sine_wave_values_ :=
          ((List.range n).map CoreLogic.nthSample).drop (n - CoreLogic.MAX_VALUES) } := by
  induction n with
  | zero => simp [CoreLogic.runTicks, CoreLogic.init]
  | succ n ih =>
      rw [CoreLogic.runTicks, ih, CoreLogic.Update_initLike]
      have hv : CoreLogic.GenerateWaveValue CoreLogic.init ((n : ℝ) / 60 + 1 / 60) 0
          = CoreLogic.nthSample n := by
        rw [CoreLogic.nthSample, div_add_div_same]
      rw [hv]
      have ht : (n : ℝ) / 60 + 1 / 60 = ((n + 1 : ℕ) : ℝ) / 60 := by
        push_cast
        ring
      rw [ht]
      simp only [CoreLogic.mk.injEq, true_and, and_true, CoreLogic.MAX_VALUES]
      by_cases hn : n < 500
      · have h0 : n - 500 = 0 := Nat.sub_eq_zero_of_le (le_of_lt hn)
        have h1 : n + 1 - 500 = 0 := Nat.sub_eq_zero_of_le hn
        have hcond : ¬ (500 : ℕ)
            < (((List.range n).map CoreLogic.nthSample).drop 0
                ++ [CoreLogic.nthSample n]).length := by
          simp only [List.drop_zero, List.length_append, List.length_map,
            List.length_range, List.length_cons, List.length_nil]
          omega
        rw [h0, h1, if_neg hcond, List.drop_zero, List.drop_zero]
        simp [List.range_succ]
      · push_neg at hn
        have hlen : (((List.range n).map CoreLogic.nthSample).drop
            (n - 500)).length = 500 := by
          simp only [List.length_drop, List.length_map, List.length_range]
          omega
        have hne : ((List.range n).map CoreLogic.nthSample).drop (n - 500) ≠ [] := by
          intro hcontra
          rw [hcontra] at hlen
          simp at hlen
        have hcond : (500 : ℕ)
            < (((List.range n).map CoreLogic.nthSample).drop (n - 500)
                ++ [CoreLogic.nthSample n]).length := by
          rw [List.length_append, hlen]
          simp
        have hle : n + 1 - 500 ≤ ((List.range n).map CoreLogic.nthSample).length := by
          simp only [List.length_map, List.length_range]
          omega
        rw [if_pos hcond, List.tail_append_singleton_of_ne_nil hne, List.tail_drop,
          List.range_succ, List.map_append, List.drop_append_of_le_length hle,
          Nat.sub_add_comm hn]
        simp

/-- C1: for every number `n` of `Update()` calls performed on a freshly
constructed engine, the sample history size equals `min n MAX_VALUES` with
`MAX_VALUES = 500`; moreover a single `Update()` preserves the bound
`size ≤ MAX_VALUES` from any state, so the size never exceeds
`MAX_VALUES`. -/
theorem claim_C1_history_size :
    (∀ (d : ℕ → ℝ) (n : ℕ),
        (CoreLogic.runTicks d n CoreLogic.init).sine_wave_values_.length
          = min n CoreLogic.MAX_VALUES)
    ∧ (∀ (u : ℝ) (s : CoreLogic),
        s.sine_wave_values_.length ≤ CoreLogic.MAX_VALUES →
          (CoreLogic.Update u s).sine_wave_values_.length ≤ CoreLogic.MAX_VALUES) := by
  constructor
  · intro d n
    rw [CoreLogic.runTicks_init_eq]
    simp only [List.length_drop, List.length_map, List.length_range,
      CoreLogic.MAX_VALUES]
    omega
  · intro u s h
    rw [CoreLogic.Update_eq]
    simp only [CoreLogic.MAX_VALUES] at h ⊢
    split_ifs with hc
    · simp only [List.length_tail, List.length_append, List.length_cons,
        List.length_nil]
      omega
    · simp only [List.length_append, List.length_cons, List.length_nil] at hc ⊢
      omega

/-- Witness for C1 at a concrete input: the fresh engine satisfies the size
bound and one `Update()` keeps it. -/
theorem claim_C1_history_size_witness :
    CoreLogic.init.sine_wave_values_.length ≤ CoreLogic.MAX_VALUES
    ∧ (CoreLogic.Update 0 CoreLogic.init).sine_wave_values_.length
        ≤ CoreLogic.MAX_VALUES :=
  ⟨by simp [CoreLogic.init, CoreLogic.MAX_VALUES],
    claim_C1_history_size.2 0 CoreLogic.init
      (by simp [CoreLogic.init, CoreLogic.MAX_VALUES])⟩

/-- C2: for every `n > MAX_VALUES`, after `n` ticks the history is exactly
the most recent `MAX_VALUES` generated samples in generation order (the
suffix of the generated sequence from 0-based insertion index
`n - MAX_VALUES`), its length is `MAX_VALUES`, and its first element is the
sample with 0-based insertion index `n - MAX_VALUES`. -/
theorem claim_C2_fifo_window (d : ℕ → ℝ) (n : ℕ)
    (hn : CoreLogic.MAX_VALUES < n) :
    (CoreLogic.runTicks d n CoreLogic.init).sine_wave_values_
        = ((List.range n).map CoreLogic.nthSample).drop (n - CoreLogic.MAX_VALUES)
    ∧ (CoreLogic.runTicks d n CoreLogic.init).sine_wave_values_.length
        = CoreLogic.MAX_VALUES
    ∧ (CoreLogic.runTicks d n CoreLogic.init).sine_wave_values_.head?
        = some (CoreLogic.nthSample (n - CoreLogic.MAX_VALUES)) := by
  have hvals : (CoreLogic.runTicks d n CoreLogic.init).sine_wave_values_
      = ((List.range n).map CoreLogic.nthSample).drop (n - CoreLogic.MAX_VALUES) := by
    rw [CoreLogic.runTicks_init_eq]
  refine ⟨hvals, ?_, ?_⟩
  · rw [hvals]
    simp only [List.length_drop, List.length_map, List.length_range,
      CoreLogic.MAX_VALUES] at hn ⊢
    omega
  · rw [hvals, List.head?_drop]
    have hlt : n - CoreLogic.MAX_VALUES < n := by
      simp only [CoreLogic.MAX_VALUES] at hn ⊢
      omega
    simp [List.getElem?_map, List.getElem?_range, hlt]

/-- Witness for C2: 501 ticks with capacity 500 leave a history of length
500 whose first element is the sample of 0-based insertion index 1 (the
2nd generated sample). -/
theorem claim_C2_fifo_window_witness :
    CoreLogic.MAX_VALUES < 501
    ∧ (CoreLogic.runTicks (fun _ => 0) 501 CoreLogic.init).sine_wave_values_.length
        = CoreLogic.MAX_VALUES
    ∧ (CoreLogic.runTicks (fun _ => 0) 501 CoreLogic.init).sine_wave_values_.head?
        = some (CoreLogic.nthSample (501 - CoreLogic.MAX_VALUES)) :=
  ⟨by decide, (claim_C2_fifo_window (fun _ => 0) 501 (by decide)).2.1,
    (claim_C2_fifo_window (fun _ => 0) 501 (by decide)).2.2⟩

/-- One `Update()` call leaves every parameter field of the engine
unchanged: only `time_` and `sine_wave_values_` are written. -/
theorem CoreLogic.Update_frame (u : ℝ) (s : CoreLogic) :
    (CoreLogic.Update u s).frequency_ = s.frequency_
    ∧ (CoreLogic.Update u s).amplitude_ = s.amplitude_
    ∧ (CoreLogic.Update u s).phase_ = s.phase_
    ∧ (CoreLogic.Update u s).noise_ = s.noise_
    ∧ (CoreLogic.Update u s).fps_ = s.fps_
    ∧ (CoreLogic.Update u s).wave_type_ = s.wave_type_
    ∧ (CoreLogic.Update u s).wave_color_ = s.wave_color_
    ∧ (CoreLogic.Update u s).bg_color_ = s.bg_color_ :=
  ⟨rfl, rfl, rfl, rfl, rfl, rfl, rfl, rfl⟩

/-- Iterated ticking leaves `fps_` unchanged. -/
theorem CoreLogic.runTicks_fps (d : ℕ → ℝ) (n : ℕ) (s : CoreLogic) :
    (CoreLogic.runTicks d n s).fps_ = s.fps_ := by
  induction n with
  | zero => rfl
  | succ n ih => rw [CoreLogic.runTicks, (CoreLogic.Update_frame _ _).2.2.2.2.1, ih]

/-- Iterated ticking leaves `noise_` unchanged. -/
theorem CoreLogic.runTicks_noise (d : ℕ → ℝ) (n : ℕ) (s : CoreLogic) :
    (CoreLogic.runTicks d n s).noise_ = s.noise_ := by
  induction n with
  | zero => rfl
  | succ n ih => rw [CoreLogic.runTicks, (CoreLogic.Update_frame _ _).2.2.2.1, ih]

/-- When `noise_ = 0` the whole `Update()` call is independent of the
noise draw. -/
theorem CoreLogic.Update_draw_irrel (s : CoreLogic) (u v : ℝ) (h : s.noise_ = 0) :
    CoreLogic.Update u s = CoreLogic.Update v s := by
  rw [CoreLogic.Update_eq, CoreLogic.Update_eq,
    CoreLogic.GenerateWaveValue_draw_irrel s (s.time_ + 1 / s.fps_) u v h]

/-- C4: `simulatedTime` starts at 0 at construction, each tick advances it
by exactly `1 / fps_` (the value current at that tick), it is
non-decreasing whenever `fps_` is positive, and over `n` ticks with the
(held-fixed) rate it accumulates to `time + n · (1 / fps)`; on a fresh
engine this is `n / 60`. -/
theorem claim_C4_monotonic_time :
    CoreLogic.init.time_ = 0
    ∧ (∀ (u : ℝ) (s : CoreLogic),
        (CoreLogic.Update u s).time_ = s.time_ + 1 / s.fps_)
    ∧ (∀ (u : ℝ) (s : CoreLogic), 0 < s.fps_ →
        s.time_ ≤ (CoreLogic.Update u s).time_)
    ∧ (∀ (d : ℕ → ℝ) (n : ℕ) (s : CoreLogic),
        (CoreLogic.runTicks d n s).time_ = s.time_ + n * (1 / s.fps_)) := by
  refine ⟨rfl, fun u s => rfl, ?_, ?_⟩
  · intro u s h
    have hstep : (CoreLogic.Update u s).time_ = s.time_ + 1 / s.fps_ := rfl
    rw [hstep]
    have : 0 < 1 / s.fps_ := one_div_pos.mpr h
    linarith
  · intro d n s
    induction n with
    | zero => simp [CoreLogic.runTicks]
    | succ n ih =>
        have hstep : (CoreLogic.Update (d n) (CoreLogic.runTicks d n s)).time_
            = (CoreLogic.runTicks d n s).time_
              + 1 / (CoreLogic.runTicks d n s).fps_ := rfl
        rw [CoreLogic.runTicks, hstep, CoreLogic.runTicks_fps, ih]
        push_cast
        ring

/-- Witness for C4 at a concrete input: the fresh engine has positive
`fps_` and its clock does not decrease on one tick. -/
theorem claim_C4_monotonic_time_witness :
    0 < CoreLogic.init.fps_
    ∧ CoreLogic.init.time_ ≤ (CoreLogic.Update 0 CoreLogic.init).time_ :=
  ⟨by norm_num [CoreLogic.init],
    claim_C4_monotonic_time.2.2.1 0 CoreLogic.init (by norm_num [CoreLogic.init])⟩

/-- C5: with `noise_ = 0`, `GenerateWaveValue` is a pure function of the
time and the current parameters — the random draw has no influence — so
two engines started from the same state and ticked equally often, with
arbitrary (different) draw streams, are identical states: the produced
sample sequences coincide. -/
theorem claim_C5_determinism :
    (∀ (s : CoreLogic) (t u v : ℝ), s.noise_ = 0 →
        s.GenerateWaveValue t u = s.GenerateWaveValue t v)
    ∧ (∀ (s : CoreLogic), s.noise_ = 0 →
        ∀ (d d' : ℕ → ℝ) (n : ℕ),
          CoreLogic.runTicks d n s = CoreLogic.runTicks d' n s) := by
  constructor
  · intro s t u v h
    exact CoreLogic.GenerateWaveValue_draw_irrel s t u v h
  · intro s h d d' n
    induction n with
    | zero => rfl
    | succ n ih =>
        rw [CoreLogic.runTicks, CoreLogic.runTicks, ih,
          CoreLogic.Update_draw_irrel (CoreLogic.runTicks d' n s) (d n) (d' n)
            (by rw [CoreLogic.runTicks_noise, h])]

/-- Witness for C5 at a concrete input: the fresh engine has zero noise
and two 2-tick runs with different draw streams agree. -/
theorem claim_C5_determinism_witness :
    CoreLogic.init.noise_ = 0
    ∧ CoreLogic.runTicks (fun _ => 1) 2 CoreLogic.init
        = CoreLogic.runTicks (fun _ => -1) 2 CoreLogic.init :=
  ⟨rfl, claim_C5_determinism.2 CoreLogic.init rfl (fun _ => 1) (fun _ => -1) 2⟩

/-- C8: `Update()` is frame-respecting — it leaves every field of the
parameter set (wave shape, frequency, amplitude, phase, noise, fps, wave
and background colors) unchanged, writing only `time_` and
`sine_wave_values_`; and `GenerateWaveValue`, embedded as a plain function
returning a real, touches no engine state at all (in the source it is
`const` on the class members). -/
theorem claim_C8_update_frame (u : ℝ) (s : CoreLogic) :
    (CoreLogic.Update u s).frequency_ = s.frequency_
    ∧ (CoreLogic.Update u s).amplitude_ = s.amplitude_
    ∧ (CoreLogic.Update u s).phase_ = s.phase_
    ∧ (CoreLogic.Update u s).noise_ = s.noise_
    ∧ (CoreLogic.Update u s).fps_ = s.fps_
    ∧ (CoreLogic.Update u s).wave_type_ = s.wave_type_
    ∧ (CoreLogic.Update u s).wave_color_ = s.wave_color_
    ∧ (CoreLogic.Update u s).bg_color_ = s.bg_color_ :=
  CoreLogic.Update_frame u s

/-- The base value computed by the `switch` of the source equals the base
value stated by the specification: same trigonometric shapes, and for
Triangle and Sawtooth the source's `fmod` plus negative-remainder fix-up
agrees with the specification's normalization of `θ/(2π)` into [0,1). -/
theorem CoreLogic.GenerateWaveValueBase_eq_spec (s : CoreLogic) (t : ℝ) :
    s.GenerateWaveValueBase t
      = specShapeValue s.wave_type_ (2 * Real.pi * s.frequency_ * t + s.phase_) := by
  unfold CoreLogic.GenerateWaveValueBase specShapeValue
  cases s.wave_type_
  · rfl
  · rfl
  · rfl
  · simp only [wrapped_fmod_eq_fract]
    norm_num
  · simp only [wrapped_fmod_eq_fract]

/-- C3: for every time, shape, parameter set and draw, `GenerateWaveValue`
computes the angle `θ = 2π·frequency_·t + phase_`, takes the shape's base
value as the specification states it (sin, cos, sign of sin, the
triangle/sawtooth piecewise-linear formulas on the normalized angle),
multiplies it by `amplitude_`, and then adds the noise term
`noise_·amplitude_·u` exactly when `noise_ > 0`. -/
theorem claim_C3_wave_formula (s : CoreLogic) (t u : ℝ) :
    s.GenerateWaveValue t u
      = specShapeValue s.wave_type_ (2 * Real.pi * s.frequency_ * t + s.phase_)
          * s.amplitude_
        + (if s.noise_ > 0 then s.noise_ * s.amplitude_ * u else 0) := by
  unfold CoreLogic.GenerateWaveValue
  rw [CoreLogic.GenerateWaveValueBase_eq_spec]
  split_ifs <;> ring

/-- C9: with the default parameters (`amplitude_ = 1`, `phase_ = 0`,
`frequency_ = 1`, `noise_ = 0`) at `t = 0` (so `θ = 0`),
`GenerateWaveValue` returns 0 for Sine, 1 for Cosine, +1 for Square (the
`sin θ ≥ 0` boundary), 0 for Triangle, and -1 for Sawtooth (the wrap
boundary of the normalization). -/
theorem claim_C9_known_points :
    CoreLogic.GenerateWaveValue CoreLogic.init 0 0 = 0
    ∧ CoreLogic.GenerateWaveValue
        (CoreLogic.SetWaveType WaveType.COSINE CoreLogic.init) 0 0 = 1
    ∧ CoreLogic.GenerateWaveValue
        (CoreLogic.SetWaveType WaveType.SQUARE CoreLogic.init) 0 0 = 1
    ∧ CoreLogic.GenerateWaveValue
        (CoreLogic.SetWaveType WaveType.TRIANGLE CoreLogic.init) 0 0 = 0
    ∧ CoreLogic.GenerateWaveValue
        (CoreLogic.SetWaveType WaveType.SAWTOOTH CoreLogic.init) 0 0 = -1 := by
  refine ⟨?_, ?_, ?_, ?_, ?_⟩ <;>
    simp [CoreLogic.GenerateWaveValue, CoreLogic.GenerateWaveValueBase,
      CoreLogic.SetWaveType, CoreLogic.init, fmod, rtrunc]
  norm_num

/-- The base value of every shape lies in [-1, 1]. -/
theorem CoreLogic.GenerateWaveValueBase_bounds (s : CoreLogic) (t : ℝ) :
    -1 ≤ s.GenerateWaveValueBase t ∧ s.GenerateWaveValueBase t ≤ 1 := by
  rw [CoreLogic.GenerateWaveValueBase_eq_spec]
  unfold specShapeValue
  cases s.wave_type_
  · exact ⟨Real.neg_one_le_sin _, Real.sin_le_one _⟩
  · exact ⟨Real.neg_one_le_cos _, Real.cos_le_one _⟩
  · split_ifs <;> norm_num
  · have h0 := Int.fract_nonneg
      ((2 * Real.pi * s.frequency_ * t + s.phase_) / (2 * Real.pi))
    have h1 := Int.fract_lt_one
      ((2 * Real.pi * s.frequency_ * t + s.phase_) / (2 * Real.pi))
    simp only []
    split_ifs with ha hb <;> constructor <;> linarith
  · have h0 := Int.fract_nonneg
      ((2 * Real.pi * s.frequency_ * t + s.phase_) / (2 * Real.pi))
    have h1 := Int.fract_lt_one
      ((2 * Real.pi * s.frequency_ * t + s.phase_) / (2 * Real.pi))
    constructor <;> simp only [] <;> linarith

/-- C10: for every shape, time and parameter set the base value (before
amplitude scaling) lies in [-1, 1]; hence with zero noise
`|GenerateWaveValue| ≤ |amplitude_|`, and every element of the history
after a noiseless tick is either an old element or bounded by the
amplitude in force at that tick. -/
theorem claim_C10_amplitude_bound :
    (∀ (s : CoreLogic) (t : ℝ),
        -1 ≤ s.GenerateWaveValueBase t ∧ s.GenerateWaveValueBase t ≤ 1)
    ∧ (∀ (s : CoreLogic) (t u : ℝ), s.noise_ = 0 →
        |s.GenerateWaveValue t u| ≤ |s.amplitude_|)
    ∧ (∀ (u : ℝ) (s : CoreLogic), s.noise_ = 0 →
        ∀ x ∈ (CoreLogic.Update u s).sine_wave_values_,
          x ∈ s.sine_wave_values_ ∨ |x| ≤ |s.amplitude_|) := by
  have habs : ∀ (s : CoreLogic) (t u : ℝ), s.noise_ = 0 →
      |s.GenerateWaveValue t u| ≤ |s.amplitude_| := by
    intro s t u h
    have hval : s.GenerateWaveValue t u = s.GenerateWaveValueBase t * s.amplitude_ := by
      unfold CoreLogic.GenerateWaveValue
      rw [if_neg]
      rw [h]
      exact lt_irrefl 0
    rw [hval, abs_mul]
    have hb := CoreLogic.GenerateWaveValueBase_bounds s t
    have hb1 : |s.GenerateWaveValueBase t| ≤ 1 := abs_le.mpr hb
    exact mul_le_of_le_one_left (abs_nonneg _) hb1
  refine ⟨CoreLogic.GenerateWaveValueBase_bounds, habs, ?_⟩
  intro u s h x hx
  rw [CoreLogic.Update_eq] at hx
  simp only at hx
  have hx2 : x ∈ s.sine_wave_values_
      ++ [s.GenerateWaveValue (s.time_ + 1 / s.fps_) u] := by
    by_cases hc : CoreLogic.MAX_VALUES
        < (s.sine_wave_values_
            ++ [s.GenerateWaveValue (s.time_ + 1 / s.fps_) u]).length
    · rw [if_pos hc] at hx
      exact List.mem_of_mem_tail hx
    · rw [if_neg hc] at hx
      exact hx
  rcases List.mem_append.mp hx2 with hold | hnew
  · exact Or.inl hold
  · right
    rw [List.mem_singleton.mp hnew]
    exact habs s _ u h

/-- Witness for C10 at a concrete input: the fresh engine is noiseless and
its sample at time 0 is bounded by its amplitude. -/
theorem claim_C10_amplitude_bound_witness :
    CoreLogic.init.noise_ = 0
    ∧ |CoreLogic.GenerateWaveValue CoreLogic.init 0 0|
        ≤ |CoreLogic.init.amplitude_| :=
  ⟨rfl, claim_C10_amplitude_bound.2.1 CoreLogic.init 0 0 rfl⟩

/-- Counterexample to C6 as stated: the claim quantifies over every
amplitude, but for a negative amplitude the asserted interval
`[-L·A, L·A]` is inverted.  With `noise_ = 1`, `amplitude_ = -1`, `t = 0`
(Sine, so the noiseless value is 0) and draw `u = 1`, the deviation is
`-1`, yet `-(L·A) = 1 ≤ -1` fails, so the deviation does not lie within
`[-L·A, L·A]`. -/
theorem claim_C6_noise_bound_counterexample :
    (CoreLogic.SetNoise 1 (CoreLogic.SetAmplitude (-1) CoreLogic.init)).noise_ = 1
    ∧ (CoreLogic.SetNoise 1
        (CoreLogic.SetAmplitude (-1) CoreLogic.init)).amplitude_ = -1
    ∧ CoreLogic.GenerateWaveValue
          (CoreLogic.SetNoise 1 (CoreLogic.SetAmplitude (-1) CoreLogic.init)) 0 1
        - CoreLogic.GenerateWaveValueBase
            (CoreLogic.SetNoise 1 (CoreLogic.SetAmplitude (-1) CoreLogic.init)) 0
          * (CoreLogic.SetNoise 1
              (CoreLogic.SetAmplitude (-1) CoreLogic.init)).amplitude_
        = -1
    ∧ ¬(-((1 : ℝ) * -1) ≤ -1 ∧ (-1 : ℝ) ≤ (1 : ℝ) * -1) := by
  refine ⟨rfl, rfl, ?_, by norm_num⟩
  simp [CoreLogic.GenerateWaveValue, CoreLogic.GenerateWaveValueBase,
    CoreLogic.SetNoise, CoreLogic.SetAmplitude, CoreLogic.init]

/-- C6 amended: for `0 ≤ noise_ ≤ 1` and a draw `u ∈ [-1, 1]`, the
deviation of the generated sample from the noiseless value
`base · amplitude_` equals `noise_ · amplitude_ · u` exactly (when
`noise_ = 0` no noise term is added at all, and the deviation is 0), and
its absolute value is at most `noise_ · |amplitude_|` — which is the
interval `[-L·A, L·A]` of the original claim whenever `amplitude_ ≥ 0`. -/
theorem claim_C6_noise_bound (s : CoreLogic) (t u : ℝ)
    (h0 : 0 ≤ s.noise_) (_h1 : s.noise_ ≤ 1) (hu1 : -1 ≤ u) (hu2 : u ≤ 1) :
    s.GenerateWaveValue t u - s.GenerateWaveValueBase t * s.amplitude_
        = s.noise_ * s.amplitude_ * u
    ∧ |s.GenerateWaveValue t u - s.GenerateWaveValueBase t * s.amplitude_|
        ≤ s.noise_ * |s.amplitude_|
    ∧ (0 ≤ s.amplitude_ →
        -(s.noise_ * s.amplitude_)
            ≤ s.GenerateWaveValue t u - s.GenerateWaveValueBase t * s.amplitude_
        ∧ s.GenerateWaveValue t u - s.GenerateWaveValueBase t * s.amplitude_
            ≤ s.noise_ * s.amplitude_)
    ∧ (s.noise_ = 0 →
        s.GenerateWaveValue t u = s.GenerateWaveValueBase t * s.amplitude_) := by
  have hdev : s.GenerateWaveValue t u - s.GenerateWaveValueBase t * s.amplitude_
      = s.noise_ * s.amplitude_ * u := by
    unfold CoreLogic.GenerateWaveValue
    split_ifs with hc
    · ring
    · have hz : s.noise_ = 0 := le_antisymm (not_lt.mp hc) h0
      rw [hz]
      ring
  have hu : |u| ≤ 1 := abs_le.mpr ⟨hu1, hu2⟩
  refine ⟨hdev, ?_, ?_, ?_⟩
  · rw [hdev, abs_mul, abs_mul, abs_of_nonneg h0]
    have hαnn : 0 ≤ s.noise_ * |s.amplitude_| := mul_nonneg h0 (abs_nonneg _)
    calc s.noise_ * |s.amplitude_| * |u|
        ≤ s.noise_ * |s.amplitude_| * 1 := by
          exact mul_le_mul_of_nonneg_left hu hαnn
      _ = s.noise_ * |s.amplitude_| := by ring
  · intro ha
    rw [hdev]
    constructor
    · nlinarith [mul_nonneg h0 ha]
    · nlinarith [mul_nonneg h0 ha]
  · intro hz
    unfold CoreLogic.GenerateWaveValue
    rw [if_neg]
    rw [hz]
    exact lt_irrefl 0

/-- Witness for C6 at a concrete input: the fresh engine (zero noise) with
draw 0 has deviation bounded by `noise_ · |amplitude_|`. -/
theorem claim_C6_noise_bound_witness :
    (0 : ℝ) ≤ CoreLogic.init.noise_ ∧ CoreLogic.init.noise_ ≤ 1
    ∧ |CoreLogic.GenerateWaveValue CoreLogic.init 0 0
          - CoreLogic.GenerateWaveValueBase CoreLogic.init 0
            * CoreLogic.init.amplitude_|
        ≤ CoreLogic.init.noise_ * |CoreLogic.init.amplitude_| :=
  ⟨le_refl 0, by norm_num [CoreLogic.init],
    (claim_C6_noise_bound CoreLogic.init 0 0 (le_refl 0)
      (by norm_num [CoreLogic.init]) (by norm_num) (by norm_num)).2.1⟩

/-- Counterexample to C7 as stated: no setter validates anything — the
parameters are exposed as mutable references.  Writing `-5` through
`GetFps()` stores `-5` verbatim (neither rejected nor clamped, no
invalid-argument condition exists in the interface), and the next
`Update()` then moves `simulatedTime` backwards, corrupting it. -/
theorem claim_C7_setter_validation_counterexample :
    (CoreLogic.SetFps (-5) CoreLogic.init).fps_ = -5
    ∧ (CoreLogic.Update 0 (CoreLogic.SetFps (-5) CoreLogic.init)).time_
        < (CoreLogic.SetFps (-5) CoreLogic.init).time_ := by
  constructor
  · rfl
  · have hstep : (CoreLogic.Update 0 (CoreLogic.SetFps (-5) CoreLogic.init)).time_
        = (CoreLogic.SetFps (-5) CoreLogic.init).time_
          + 1 / (CoreLogic.SetFps (-5) CoreLogic.init).fps_ := rfl
    rw [hstep]
    norm_num [CoreLogic.SetFps, CoreLogic.init]

/-- C7 amended: the engine performs no validation at the parameter
boundary.  Every real-valued parameter write stores its argument verbatim
(including non-positive sample rates and any other out-of-range real), no
invalid-argument condition is surfaced, and a negative `fps_` makes the
next `Update()` decrease `simulatedTime`. -/
theorem claim_C7_no_setter_validation :
    (∀ (v : ℝ) (s : CoreLogic), (CoreLogic.SetFrequency v s).frequency_ = v)
    ∧ (∀ (v : ℝ) (s : CoreLogic), (CoreLogic.SetAmplitude v s).amplitude_ = v)
    ∧ (∀ (v : ℝ) (s : CoreLogic), (CoreLogic.SetPhase v s).phase_ = v)
    ∧ (∀ (v : ℝ) (s : CoreLogic), (CoreLogic.SetNoise v s).noise_ = v)
    ∧ (∀ (v : ℝ) (s : CoreLogic), (CoreLogic.SetFps v s).fps_ = v)
    ∧ (∀ (u : ℝ) (s : CoreLogic), s.fps_ < 0 →
        (CoreLogic.Update u s).time_ < s.time_) := by
  refine ⟨fun v s => rfl, fun v s => rfl, fun v s => rfl, fun v s => rfl,
    fun v s => rfl, ?_⟩
  intro u s h
  have hstep : (CoreLogic.Update u s).time_ = s.time_ + 1 / s.fps_ := rfl
  rw [hstep]
  have : 1 / s.fps_ < 0 := one_div_neg.mpr h
  linarith

/-- Witness for C7's amended theorem at a concrete input: after storing
`-5` through the fps accessor, one tick strictly decreases the clock. -/
theorem claim_C7_no_setter_validation_witness :
    (CoreLogic.SetFps (-5) CoreLogic.init).fps_ < 0
    ∧ (CoreLogic.Update 1 (CoreLogic.SetFps (-5) CoreLogic.init)).time_
        < (CoreLogic.SetFps (-5) CoreLogic.init).time_ :=
  ⟨by norm_num [CoreLogic.SetFps, CoreLogic.init],
    claim_C7_no_setter_validation.2.2.2.2.2 1
      (CoreLogic.SetFps (-5) CoreLogic.init)
      (by norm_num [CoreLogic.SetFps, CoreLogic.init])⟩
